import Mathlib

/-!
# go-openvswitch: verification of spec claims against a shallow embedding

This file embeds, in Lean 4, the parts of the digitalocean/go-openvswitch
repository that the frozen claims C1..C10 speak about, and settles each
claim.  Every definition is translated from the Go sources; the few
definitions whose Go source file is absent from the staged sources (only
its tests or callers are staged) are marked `Modelled from the spec:` in
their doc comment.

Conventions used throughout:
* Go strings are embedded as `List Char` (or `String` where convenient);
  Go byte slices as `List Nat` with every element < 256 understood.
* Go functions returning `(T, error)` become `Except String T` or a pair,
  as noted at each definition.
* A Go runtime panic (nil-pointer dereference, slice bound out of range)
  is represented by an explicit constructor of the result type, since a
  panic is an observable, distinct outcome of the Go code.
-/

namespace Govs

/-! ## ovs/actionparser.go — the balanced-parenthesis action tokenizer

`actionParser.parseAction` (lines 82-126) reads runes one at a time,
breaking a token at a comma seen while the parenthesis stack is empty, or
at end of input.  `(` pushes and `)` pops the stack; `stack.pop`
(lines 141-144) evaluates `(*s)[:s.len()-1]`, which panics when the stack
is empty.  The Go reader signals end of input by the sentinel `eof =
rune(0)`, so a literal NUL rune in the input is also treated as end of a
token. -/

/-- The sentinel rune `eof = rune(0)` of ovs/actionparser.go line 44. -/
def eofChar : Char := Char.ofNat 0

/-- Result of one `actionParser.parseAction` token scan.

* `tok buf rest d`: the loop broke with accumulated buffer `buf`, unread
  input `rest`, and parenthesis-stack length `d` (the stack survives in
  the parser between calls);
* `eofR`: the Go function returned `io.EOF` (empty buffer at end);
* `errR buf`: the Go function returned the error `invalid action: <buf>`
  (unmatched `(` at end of input, actionparser.go lines 119-121);
* `panicR`: `stack.pop` executed on an empty stack, so the Go program
  panics with a slice bound below zero. -/
inductive TokResult where
  | tok (buf rest : List Char) (d : Nat)
  | eofR
  | errR (buf : List Char)
  | panicR
  deriving DecidableEq, Repr

/-- The rune loop of `actionParser.parseAction` (actionparser.go lines
86-121): `buf` is the `bytes.Buffer`, `d` the length of the parenthesis
stack `p.s`, and the list argument the unread input. -/
def parseActionLoop (buf : List Char) (d : Nat) : List Char → TokResult
  | [] =>
    if buf = [] then .eofR
    else if 0 < d then .errR buf
    else .tok buf [] d
  | c :: rest =>
    if c = ',' ∧ d = 0 then
      if 0 < d then .errR buf else .tok buf rest d
    else if c = eofChar then
      if buf = [] then .eofR
      else if 0 < d then .errR buf
      else .tok buf rest d
    else if c = '(' then
      parseActionLoop (buf ++ [c]) (d + 1) rest
    else if c = ')' then
      match d with
      | 0 => .panicR
      | d' + 1 => parseActionLoop (buf ++ [c]) d' rest
    else
      parseActionLoop (buf ++ [c]) d rest

/-- Result of `actionParser.Parse` at the tokenization level: the list of
raw token strings it accumulates (actionparser.go lines 58-78), the
`invalid action: <buf>` error, or a panic in `stack.pop`.  Recognition of
each raw token by `parseAction(s)` is factored out (see `parseActionGo`
below); this type records the raw token stream `raw` of `Parse`. -/
inductive TokensResult where
  | ok (toks : List (List Char))
  | err (buf : List Char)
  | panics
  deriving DecidableEq, Repr

/-- `actionParser.Parse` (actionparser.go lines 58-78) at the tokenization
level: repeatedly scan one token; stop at `io.EOF`; propagate the
`invalid action` error; the parenthesis stack length `d` persists across
tokens as it does in the parser struct. -/
def parseActions (input : List Char) (d : Nat) : TokensResult :=
  match h : parseActionLoop [] d input with
  | .eofR => .ok []
  | .errR b => .err b
  | .panicR => .panics
  | .tok b rest d2 =>
    match parseActions rest d2 with
    | .ok toks => .ok (b :: toks)
    | r => r
termination_by input.length
decreasing_by
  have key : ∀ (input buf : List Char) (d : Nat) b rest d2,
      parseActionLoop buf d input = .tok b rest d2 →
      rest.length < input.length ∨ input = [] := by
    intro input
    induction input with
    | nil =>
      intro buf d b rest d2 h
      exact Or.inr rfl
    | cons c cs ih =>
      intro buf d b rest d2 h
      simp only [parseActionLoop] at h
      split at h
      · split at h
        · cases h
        · cases h
          exact Or.inl (by simp)
      · split at h
        · split at h
          · cases h
          · split at h
            · cases h
            · cases h
              exact Or.inl (by simp)
        · split at h
          · rcases ih _ _ _ _ _ h with h' | h'
            · exact Or.inl (Nat.lt_succ_of_lt h')
            · subst h'
              simp only [parseActionLoop] at h
              split at h
              · cases h
              · split at h
                · cases h
                · cases h
                  exact Or.inl (by simp)
          · split at h
            · split at h
              · cases h
              · rcases ih _ _ _ _ _ h with h' | h'
                · exact Or.inl (Nat.lt_succ_of_lt h')
                · subst h'
                  simp only [parseActionLoop] at h
                  split at h
                  · cases h
                  · split at h
                    · cases h
                    · cases h
                      exact Or.inl (by simp)
            · rcases ih _ _ _ _ _ h with h' | h'
              · exact Or.inl (Nat.lt_succ_of_lt h')
              · subst h'
                simp only [parseActionLoop] at h
                split at h
                · cases h
                · split at h
                  · cases h
                  · cases h
                    exact Or.inl (by simp)
  rcases key input [] d b rest d2 h with h' | h'
  · exact h'
  · subst h'
    simp [parseActionLoop] at h

/-- Parenthesis-nesting depth of the whole input, following exactly the
stack discipline of the tokenizer (`(` pushes, `)` pops, a pop on an empty
stack is the panic, every other rune leaves the stack alone).  `none`
means the scan would pop an empty stack before the end. -/
def scanDepth : List Char → Nat → Option Nat
  | [], d => some d
  | c :: rest, d =>
    if c = '(' then scanDepth rest (d + 1)
    else if c = ')' then
      match d with
      | 0 => none
      | d' + 1 => scanDepth rest d'
    else scanDepth rest d

/-- `true` iff the token contains no comma at parenthesis depth zero,
starting the depth count at `d`.  This is the sense in which the
tokenizer splits only at top-level commas: commas inside parentheses stay
within one token. -/
def noTopLevelComma : List Char → Nat → Bool
  | [], _ => true
  | c :: rest, d =>
    if c = ',' ∧ d = 0 then false
    else if c = '(' then noTopLevelComma rest (d + 1)
    else if c = ')' then noTopLevelComma rest (d - 1)
    else noTopLevelComma rest d

/-- Joins tokens back with a single comma between adjacent tokens — the
inverse of splitting an action list on top-level commas. -/
def joinComma : List (List Char) → List Char
  | [] => []
  | [t] => t
  | t :: ts => t ++ ',' :: joinComma ts

/-! ## ovs/actionparser.go — `parseAction` token recognition (lines 222-500)

`parseAction` recognizes one raw token: first an exact keyword switch on
`strings.ToLower(s)`, then a fixed sequence of prefix checks with
`fmt.Sscanf`, then a fixed sequence of regular expressions, first match
wins.  The regular expressions of actionparser.go lines 146-217 are
embedded by a small matcher (`reMatch`/`reFind`) that is faithful to Go's
leftmost-first, greedy-with-backtracking semantics on these patterns:
each pattern is a sequence of literals, `\d*`, `\d+` and `(\S+)` pieces.

The keyword constants (`actionDrop` …) and the `Sscanf` patterns
(`patOutput` …) are declared in ovs/action.go, which is not among the
staged sources; their string values are modelled from the spec and pinned
by the staged round-trip tests (ovs/action_test.go,
ovs/actionparser_test.go). -/

/-- Whitespace in the sense of the Go regexp class `\s` = `[\t\n\f\r ]`
(and, approximately, of `fmt.Sscanf`). -/
def goIsSpace (c : Char) : Bool :=
  c = ' ' || c = '\t' || c = '\n' || c = '\r' || c = Char.ofNat 12

/-- One piece of the regular expressions of actionparser.go lines
146-217: a literal, `(\d*)`, `(\d+)` or `(\S+)`.  Every non-literal piece
is a capturing group, as in the source patterns. -/
inductive RPat where
  | lit (cs : List Char)
  | digitsStar
  | digitsPlus
  | nonspacePlus
  deriving DecidableEq, Repr

/-- Greedy matching of one `\d*`/`\d+`/`\S+` piece with backtracking:
try the longest chunk first (`j` characters, all within the maximal run
of admissible characters), shrinking until the continuation `k` accepts
the remaining input.  `atLeastOne` distinguishes `+` from `*`. -/
def tryLens (k : List Char → Option (List (List Char))) (s : List Char)
    (atLeastOne : Bool) : Nat → Option (List (List Char))
  | 0 =>
    if atLeastOne then none
    else
      match k s with
      | some caps => some ([] :: caps)
      | none => none
  | j + 1 =>
    match k (s.drop (j + 1)) with
    | some caps => some (s.take (j + 1) :: caps)
    | none => tryLens k s atLeastOne j

/-- Match a pattern against a prefix of `s` (the rest of `s` is left
unconsumed, as with an unanchored Go regexp).  Returns the list of
captured groups in order. -/
def reMatch : List RPat → List Char → Option (List (List Char))
  | [], _ => some []
  | .lit cs :: ps, s =>
    if cs.isPrefixOf s then reMatch ps (s.drop cs.length) else none
  | .digitsStar :: ps, s =>
    tryLens (reMatch ps) s false (s.takeWhile Char.isDigit).length
  | .digitsPlus :: ps, s =>
    tryLens (reMatch ps) s true (s.takeWhile Char.isDigit).length
  | .nonspacePlus :: ps, s =>
    tryLens (reMatch ps) s true (s.takeWhile (fun c => !goIsSpace c)).length

/-- Leftmost match of the pattern anywhere in the input, as
`FindAllStringSubmatch(s, n)[0]`: positions are tried left to right. -/
def reFind (pats : List RPat) : List Char → Option (List (List Char))
  | [] => reMatch pats []
  | c :: rest =>
    match reMatch pats (c :: rest) with
    | some caps => some caps
    | none => reFind pats rest

/-- `resubmitRe` (actionparser.go line 151): `resubmit\((\d*),(\d*)\)`. -/
def resubmitRe : List RPat :=
  [.lit "resubmit(".data, .digitsStar, .lit ",".data, .digitsStar, .lit ")".data]

/-- `resubmitPortRe` (line 157): `resubmit:(\d+)`. -/
def resubmitPortRe : List RPat := [.lit "resubmit:".data, .digitsPlus]

/-- `ctRe` (line 165): `ct\((\S+)\)`. -/
def ctRe : List RPat := [.lit "ct(".data, .nonspacePlus, .lit ")".data]

/-- `loadRe` (line 171): `load:(\S+)->(\S+)`. -/
def loadRe : List RPat :=
  [.lit "load:".data, .nonspacePlus, .lit "->".data, .nonspacePlus]

/-- `moveRe` (line 177): `move:(\S+)->(\S+)`. -/
def moveRe : List RPat :=
  [.lit "move:".data, .nonspacePlus, .lit "->".data, .nonspacePlus]

/-- `setFieldRe` (line 183): `set_field:(\S+)->(\S+)`. -/
def setFieldRe : List RPat :=
  [.lit "set_field:".data, .nonspacePlus, .lit "->".data, .nonspacePlus]

/-- `popRe` (line 189): `pop:(\S+)`. -/
def popRe : List RPat := [.lit "pop:".data, .nonspacePlus]

/-- `pushRe` (line 195): `push:(\S+)`. -/
def pushRe : List RPat := [.lit "push:".data, .nonspacePlus]

/-- `controllerRe` (line 204): `controller\(userdata=(\S+)\)`. -/
def controllerRe : List RPat :=
  [.lit "controller(userdata=".data, .nonspacePlus, .lit ")".data]

/-- `groupRe` (line 210): `group:(\S+)`. -/
def groupRe : List RPat := [.lit "group:".data, .nonspacePlus]

/-- `bundleRe` (line 216):
`bundle\((\S+),(\S+),(\S+),ofport,members:(\S+)\)`. -/
def bundleRe : List RPat :=
  [.lit "bundle(".data, .nonspacePlus, .lit ",".data, .nonspacePlus, .lit ",".data,
    .nonspacePlus, .lit ",ofport,members:".data, .nonspacePlus, .lit ")".data]

/-- Modelled from the spec: the keyword constant `actionDrop` of
ovs/action.go, a file absent from the staged sources; its value `drop`
is fixed by spec section 4.1c and by ovs/actionparser_test.go. -/
def actionDrop : String := "drop"

/-- Modelled from the spec: `actionFlood` of the absent ovs/action.go. -/
def actionFlood : String := "flood"

/-- Modelled from the spec: `actionAll` of the absent ovs/action.go; the
`All()` action marshals to `all` (ovs/action_test.go TestActionConstants).
Note `parseAction`'s keyword switch (actionparser.go lines 224-241) has
no case for it. -/
def actionAll : String := "all"

/-- Modelled from the spec: `actionInPort` of the absent ovs/action.go. -/
def actionInPort : String := "in_port"

/-- Modelled from the spec: `actionLocal` of the absent ovs/action.go. -/
def actionLocal : String := "local"

/-- Modelled from the spec: `actionNormal` of the absent ovs/action.go. -/
def actionNormal : String := "normal"

/-- Modelled from the spec: `actionStripVLAN` of the absent
ovs/action.go. -/
def actionStripVLAN : String := "strip_vlan"

/-- Modelled from the spec: `actionDecTTL` of the absent ovs/action.go. -/
def actionDecTTL : String := "dec_ttl"

/-- Modelled from the spec: `actionCTClear` of the absent ovs/action.go. -/
def actionCTClear : String := "ct_clear"

/-- Modelled from the spec: the `fmt.Sscanf` pattern
`patModDataLinkDestination` of the absent ovs/action.go (spec section
4.1c item 3: `mod_dl_dst:<mac>`). -/
def patModDataLinkDestination : String := "mod_dl_dst:%s"

/-- Modelled from the spec: `patModDataLinkSource`. -/
def patModDataLinkSource : String := "mod_dl_src:%s"

/-- Modelled from the spec: `patModNetworkDestination`. -/
def patModNetworkDestination : String := "mod_nw_dst:%s"

/-- Modelled from the spec: `patModNetworkSource`. -/
def patModNetworkSource : String := "mod_nw_src:%s"

/-- Modelled from the spec: `patModTransportDestinationPort`. -/
def patModTransportDestinationPort : String := "mod_tp_dst:%d"

/-- Modelled from the spec: `patModTransportSourcePort`. -/
def patModTransportSourcePort : String := "mod_tp_src:%d"

/-- Modelled from the spec: `patModVLANVID`. -/
def patModVLANVID : String := "mod_vlan_vid:%d"

/-- Modelled from the spec: `patConjunction`
(`conjunction(<id>,<k>/<n>)`). -/
def patConjunction : String := "conjunction(%d,%d/%d)"

/-- Modelled from the spec: `patOutput` (`output:<n>`). -/
def patOutput : String := "output:%d"

/-- `pattern[:len(pattern)-k]`, the prefix `parseAction` tests with
`strings.HasPrefix` before running `Sscanf` (k = 2 for one trailing verb,
k = 10 for `patConjunction`). -/
def patCut (p : String) (k : Nat) : List Char :=
  p.data.take (p.data.length - k)

/-- A typed OVS action, one constructor per constructor function of
ovs/action.go that `parseAction` can return. -/
inductive GoAction where
  | drop
  | flood
  | inPort
  | local
  | normal
  | stripVLAN
  | decTTL
  | ctClear
  | ct (args : String)
  | modDataLinkDst (mac : List Nat)
  | modDataLinkSrc (mac : List Nat)
  | modNetworkDst (ip : List Nat)
  | modNetworkSrc (ip : List Nat)
  | modTransportDstPort (port : Nat)
  | modTransportSrcPort (port : Nat)
  | modVLANVID (vid : Int)
  | conjunction (ident dimension size : Int)
  | output (port : Int)
  | resubmit (port table : Int)
  | resubmitPort (port : Int)
  | load (value field : String)
  | move (src dst : String)
  | setField (value field : String)
  | pop (field : String)
  | push (field : String)
  | controller (userdata : String)
  | group (g : Int)
  | bundle (fields : String) (basis : Int) (algorithm : String) (ports : List Int)
  deriving DecidableEq, Repr

/-- Decimal value of a digit string. -/
def digitsToNat (ds : List Char) : Nat :=
  ds.foldl (fun a c => a * 10 + (c.toNat - 48)) 0

/-- `strconv.Atoi`: an optional sign followed by one or more digits,
nothing else (the claims never exercise the 64-bit overflow error, which
is not modelled). -/
def goAtoi (t : List Char) : Except String Int :=
  match t with
  | '-' :: rest =>
    if rest ≠ [] ∧ rest.all Char.isDigit then .ok (-(digitsToNat rest : Int))
    else .error "invalid syntax"
  | '+' :: rest =>
    if rest ≠ [] ∧ rest.all Char.isDigit then .ok (digitsToNat rest : Int)
    else .error "invalid syntax"
  | _ =>
    if t ≠ [] ∧ t.all Char.isDigit then .ok (digitsToNat t : Int)
    else .error "invalid syntax"

/-- The `%s` verb of `fmt.Sscanf`: skip whitespace, read a non-empty run
of non-space characters. -/
def scanToken (s : List Char) : Except String (List Char × List Char) :=
  let s1 := s.dropWhile goIsSpace
  let t := s1.takeWhile (fun c => !goIsSpace c)
  if t = [] then .error "unexpected EOF"
  else .ok (t, s1.drop t.length)

/-- The `%d` verb of `fmt.Sscanf`: skip whitespace, read an optional sign
and a non-empty run of digits. -/
def scanInt (s : List Char) : Except String (Int × List Char) :=
  let s1 := s.dropWhile goIsSpace
  match s1 with
  | '-' :: rest =>
    let ds := rest.takeWhile Char.isDigit
    if ds = [] then .error "expected integer"
    else .ok (-(digitsToNat ds : Int), rest.drop ds.length)
  | '+' :: rest =>
    let ds := rest.takeWhile Char.isDigit
    if ds = [] then .error "expected integer"
    else .ok ((digitsToNat ds : Int), rest.drop ds.length)
  | _ =>
    let ds := s1.takeWhile Char.isDigit
    if ds = [] then .error "expected integer"
    else .ok ((digitsToNat ds : Int), s1.drop ds.length)

/-- A literal run of an `Sscanf` format: the input must continue with
exactly these characters. -/
def expectLit (cs s : List Char) : Except String (List Char) :=
  if cs.isPrefixOf s then .ok (s.drop cs.length)
  else .error "input does not match format"

/-- Value of one hexadecimal digit. -/
def hexDigitVal (c : Char) : Option Nat :=
  if c.isDigit then some (c.toNat - 48)
  else if 'a' ≤ c ∧ c ≤ 'f' then some (c.toNat - 87)
  else if 'A' ≤ c ∧ c ≤ 'F' then some (c.toNat - 55)
  else none

/-- `net.ParseMAC`, restricted to the colon-separated 48-bit form this
package produces and consumes (six groups of two hex digits). -/
def parseMACGo (t : List Char) : Except String (List Nat) :=
  let gs := t.splitOn ':'
  if gs.length = 6 then
    match gs.mapM (fun g =>
        match g with
        | [h, l] => do
          let hv ← hexDigitVal h
          let lv ← hexDigitVal l
          some (hv * 16 + lv)
        | _ => none) with
    | some mac => .ok mac
    | none => .error ("invalid MAC address " ++ String.mk t)
  else .error ("invalid MAC address " ++ String.mk t)

/-- One dotted-quad group: one or more digits with value at most 255. -/
def decOctet (g : List Char) : Option Nat :=
  if g ≠ [] ∧ g.all Char.isDigit then
    let n := digitsToNat g
    if n ≤ 255 then some n else none
  else none

/-- `net.ParseIP(ip).To4()`, restricted to the dotted-quad form: the
`nil` result of `To4` (an IPv6 literal or garbage) is the
`invalid IPv4 address` error of actionparser.go lines 293-296. -/
def parseIPv4Go (t : List Char) : Except String (List Nat) :=
  let gs := t.splitOn '.'
  if gs.length = 4 then
    match gs.mapM decOctet with
    | some ip => .ok ip
    | none => .error ("invalid IPv4 address: " ++ String.mk t)
  else .error ("invalid IPv4 address: " ++ String.mk t)

/-- `%q` of `fmt.Errorf` on a string with no characters needing escape. -/
def goQuote (s : String) : String := "\"" ++ s ++ "\""

/-- `strings.ToLower` on the rune list (Go lowers Unicode letters; the
keyword constants this package compares against are ASCII). -/
def goToLower (s : List Char) : List Char :=
  s.map fun c => if 'A' ≤ c ∧ c ≤ 'Z' then Char.ofNat (c.toNat + 32) else c

/-- The keyword switch of `parseAction` (actionparser.go lines 224-241):
`switch strings.ToLower(s)` over the eight keyword constants.  There is
no case for `actionAll`. -/
def stageKeyword (s : String) : Option (Except String GoAction) :=
  let low := goToLower s.data
  if low = actionDrop.data then some (.ok .drop)
  else if low = actionFlood.data then some (.ok .flood)
  else if low = actionInPort.data then some (.ok .inPort)
  else if low = actionLocal.data then some (.ok .local)
  else if low = actionNormal.data then some (.ok .normal)
  else if low = actionStripVLAN.data then some (.ok .stripVLAN)
  else if low = actionDecTTL.data then some (.ok .decTTL)
  else if low = actionCTClear.data then some (.ok .ctClear)
  else none

/-- actionparser.go lines 244-249: `ctRe`. -/
def stageCT (s : String) : Option (Except String GoAction) :=
  match reFind ctRe s.data with
  | some [args] => some (.ok (.ct (String.mk args)))
  | _ => none

/-- actionparser.go lines 252-266: `mod_dl_dst:` prefix, `%s`, MAC. -/
def stageModDLDst (s : String) : Option (Except String GoAction) :=
  if (patCut patModDataLinkDestination 2).isPrefixOf s.data then
    some (do
      let (tok, _) ← scanToken (s.data.drop (patCut patModDataLinkDestination 2).length)
      let mac ← parseMACGo tok
      .ok (.modDataLinkDst mac))
  else none

/-- actionparser.go lines 269-283: `mod_dl_src:`. -/
def stageModDLSrc (s : String) : Option (Except String GoAction) :=
  if (patCut patModDataLinkSource 2).isPrefixOf s.data then
    some (do
      let (tok, _) ← scanToken (s.data.drop (patCut patModDataLinkSource 2).length)
      let mac ← parseMACGo tok
      .ok (.modDataLinkSrc mac))
  else none

/-- actionparser.go lines 286-300: `mod_nw_dst:`, IPv4 only. -/
def stageModNWDst (s : String) : Option (Except String GoAction) :=
  if (patCut patModNetworkDestination 2).isPrefixOf s.data then
    some (do
      let (tok, _) ← scanToken (s.data.drop (patCut patModNetworkDestination 2).length)
      let ip ← parseIPv4Go tok
      .ok (.modNetworkDst ip))
  else none

/-- actionparser.go lines 303-317: `mod_nw_src:`. -/
def stageModNWSrc (s : String) : Option (Except String GoAction) :=
  if (patCut patModNetworkSource 2).isPrefixOf s.data then
    some (do
      let (tok, _) ← scanToken (s.data.drop (patCut patModNetworkSource 2).length)
      let ip ← parseIPv4Go tok
      .ok (.modNetworkSrc ip))
  else none

/-- actionparser.go lines 320-329: `mod_tp_dst:%d` into a `uint16`. -/
def stageModTPDst (s : String) : Option (Except String GoAction) :=
  if (patCut patModTransportDestinationPort 2).isPrefixOf s.data then
    some (do
      let (n, _) ← scanInt (s.data.drop (patCut patModTransportDestinationPort 2).length)
      if n < 0 ∨ 65535 < n then .error "value out of range"
      else .ok (.modTransportDstPort n.toNat))
  else none

/-- actionparser.go lines 332-341: `mod_tp_src:%d` into a `uint16`. -/
def stageModTPSrc (s : String) : Option (Except String GoAction) :=
  if (patCut patModTransportSourcePort 2).isPrefixOf s.data then
    some (do
      let (n, _) ← scanInt (s.data.drop (patCut patModTransportSourcePort 2).length)
      if n < 0 ∨ 65535 < n then .error "value out of range"
      else .ok (.modTransportSrcPort n.toNat))
  else none

/-- actionparser.go lines 344-353: `mod_vlan_vid:%d`. -/
def stageModVLANVID (s : String) : Option (Except String GoAction) :=
  if (patCut patModVLANVID 2).isPrefixOf s.data then
    some (do
      let (n, _) ← scanInt (s.data.drop (patCut patModVLANVID 2).length)
      .ok (.modVLANVID n))
  else none

/-- actionparser.go lines 356-365: prefix `conjunction`, then
`Sscanf(s, "conjunction(%d,%d/%d)", …)`. -/
def stageConjunction (s : String) : Option (Except String GoAction) :=
  if (patCut patConjunction 10).isPrefixOf s.data then
    some (do
      let r0 ← expectLit "conjunction(".data s.data
      let (ident, r1) ← scanInt r0
      let r2 ← expectLit ",".data r1
      let (dim, r3) ← scanInt r2
      let r4 ← expectLit "/".data r3
      let (size, r5) ← scanInt r4
      let _ ← expectLit ")".data r5
      .ok (.conjunction ident dim size))
  else none

/-- actionparser.go lines 368-377: prefix `output:`, `%d`. -/
def stageOutput (s : String) : Option (Except String GoAction) :=
  if (patCut patOutput 2).isPrefixOf s.data then
    some (do
      let (n, _) ← scanInt (s.data.drop (patCut patOutput 2).length)
      .ok (.output n))
  else none

/-- actionparser.go lines 380-407: `resubmitRe`; an empty group leaves
the respective number at zero, a non-empty group goes through
`strconv.Atoi`.  Note both groups may be empty: the result is then
`Resubmit(0, 0)` with a nil error. -/
def stageResubmitBoth (s : String) : Option (Except String GoAction) :=
  match reFind resubmitRe s.data with
  | some [g1, g2] =>
    some (do
      let port ← if g1 = [] then (.ok 0 : Except String Int) else goAtoi g1
      let table ← if g2 = [] then (.ok 0 : Except String Int) else goAtoi g2
      .ok (.resubmit port table))
  | _ => none

/-- actionparser.go lines 410-417: `resubmitPortRe`. -/
def stageResubmitPort (s : String) : Option (Except String GoAction) :=
  match reFind resubmitPortRe s.data with
  | some [g] =>
    some (do
      let port ← goAtoi g
      .ok (.resubmitPort port))
  | _ => none

/-- actionparser.go lines 419-425: `loadRe`. -/
def stageLoad (s : String) : Option (Except String GoAction) :=
  match reFind loadRe s.data with
  | some [v, f] => some (.ok (.load (String.mk v) (String.mk f)))
  | _ => none

/-- actionparser.go lines 427-433: `moveRe`. -/
def stageMove (s : String) : Option (Except String GoAction) :=
  match reFind moveRe s.data with
  | some [v, f] => some (.ok (.move (String.mk v) (String.mk f)))
  | _ => none

/-- actionparser.go lines 435-441: `setFieldRe`. -/
def stageSetField (s : String) : Option (Except String GoAction) :=
  match reFind setFieldRe s.data with
  | some [v, f] => some (.ok (.setField (String.mk v) (String.mk f)))
  | _ => none

/-- actionparser.go lines 443-448: `popRe`. -/
def stagePop (s : String) : Option (Except String GoAction) :=
  match reFind popRe s.data with
  | some [f] => some (.ok (.pop (String.mk f)))
  | _ => none

/-- actionparser.go lines 450-455: `pushRe`. -/
def stagePush (s : String) : Option (Except String GoAction) :=
  match reFind pushRe s.data with
  | some [f] => some (.ok (.push (String.mk f)))
  | _ => none

/-- actionparser.go lines 457-462: `controllerRe`. -/
def stageController (s : String) : Option (Except String GoAction) :=
  match reFind controllerRe s.data with
  | some [u] => some (.ok (.controller (String.mk u)))
  | _ => none

/-- actionparser.go lines 463-472: `groupRe` then `Atoi`. -/
def stageGroup (s : String) : Option (Except String GoAction) :=
  match reFind groupRe s.data with
  | some [g] =>
    some (do
      let n ← goAtoi g
      .ok (.group n))
  | _ => none

/-- actionparser.go lines 473-497: `bundleRe`; `Atoi` on the basis, and
on each comma-separated member port. -/
def stageBundle (s : String) : Option (Except String GoAction) :=
  match reFind bundleRe s.data with
  | some [fields, rawBasis, alg, rawPorts] =>
    some (do
      let basis ← goAtoi rawBasis
      let ports ← (rawPorts.splitOn ',').mapM goAtoi
      .ok (.bundle (String.mk fields) basis (String.mk alg) ports))
  | _ => none

/-- The recognizers of `parseAction` in source order (first match wins). -/
def parseActionStages (s : String) : List (Option (Except String GoAction)) :=
  [stageKeyword s, stageCT s, stageModDLDst s, stageModDLSrc s, stageModNWDst s,
    stageModNWSrc s, stageModTPDst s, stageModTPSrc s, stageModVLANVID s,
    stageConjunction s, stageOutput s, stageResubmitBoth s, stageResubmitPort s,
    stageLoad s, stageMove s, stageSetField s, stagePop s, stagePush s,
    stageController s, stageGroup s, stageBundle s]

/-- The first recognizer that fires. -/
def firstHit : List (Option (Except String GoAction)) → Option (Except String GoAction)
  | [] => none
  | some r :: _ => some r
  | none :: rest => firstHit rest

/-- `parseAction` (actionparser.go lines 222-500): try each recognizer in
order; when none fires, `no action matched for %q`. -/
def parseActionGo (s : String) : Except String GoAction :=
  match firstHit (parseActionStages s) with
  | some r => r
  | none => .error ("no action matched for " ++ goQuote s)

/-- Modelled from the spec: the sentinel `errResubmitPortTableZero` of the
absent ovs/action.go (spec section 4.1c item 5; its exact message is not
in the staged sources, so it is embedded as an abstract constant). -/
def errResubmitPortTableZero : String :=
  "errResubmitPortTableZero: resubmit requires a port or a table"

/-- Modelled from the spec: `Resubmit(port, table).MarshalText()` of the
absent ovs/action.go.  Spec section 4.1c item 5 and the staged test
ovs/action_test.go `TestActionResubmit` fix: both sides zero yields
`errResubmitPortTableZero`; otherwise `resubmit(<port>?,<table>?)` with a
zero side left empty. -/
def marshalResubmit (port table : Int) : Except String String :=
  if port = 0 ∧ table = 0 then .error errResubmitPortTableZero
  else
    .ok ("resubmit(" ++ (if port = 0 then "" else toString port) ++ "," ++
      (if table = 0 then "" else toString table) ++ ")")

/-- Modelled from the spec: `MarshalText` of the nullary constant actions
of the absent ovs/action.go — each marshals to its lower-case keyword
(spec section 4.1c item 1; ovs/action_test.go `TestActionConstants`). -/
def marshalConstAction : GoAction → Option String
  | .drop => some actionDrop
  | .flood => some actionFlood
  | .inPort => some actionInPort
  | .local => some actionLocal
  | .normal => some actionNormal
  | .stripVLAN => some actionStripVLAN
  | .decTTL => some actionDecTTL
  | .ctClear => some actionCTClear
  | _ => none

/-! ## ovs matchparser (src/unnamed/part_022) — `parseCTState`

`parseMatch` (part_022 lines 16-62) dispatches the key `ct_state` to
`parseCTState(value)` (lines 124-143), which requires the byte length of
the value to be divisible by 4 and then chops the value into fixed
4-character chunks, passing the chunks to `ConnectionTrackingState`.
`ConnectionTrackingState` itself lives in ovs/match.go, which is not among
the staged sources; per the spec it simply carries the caller-given signed
flag tokens, so the match is embedded as the list of chunk strings. -/

/-- The rune loop of `parseCTState` (part_022 lines 132-140): `i` is the
byte index (all claim-relevant inputs are ASCII, so byte index = rune
index), `buf` the current `bytes.Buffer`, `states` the accumulated
chunks.  After the loop the final buffer is appended. -/
def ctStateChunkLoop (i : Nat) (buf : List Char) (states : List (List Char)) :
    List Char → List (List Char)
  | [] => states ++ [buf]
  | r :: rest =>
    if i ≠ 0 ∧ i % 4 = 0 then
      ctStateChunkLoop (i + 1) [r] (states ++ [buf]) rest
    else
      ctStateChunkLoop (i + 1) (buf ++ [r]) states rest

/-- `parseCTState` (part_022 lines 124-143): reject values whose length is
not divisible by 4, otherwise return the connection-tracking-state match
carrying the fixed 4-character chunks of the value. -/
def parseCTState (value : List Char) : Except String (List (List Char)) :=
  if value.length % 4 ≠ 0 then
    .error "ct_state length must be divisible by 4"
  else
    .ok (ctStateChunkLoop 0 [] [] value)

/-- The connection-tracking flag names of exactly three letters; together
with a leading sign each yields a 4-character token, which is the chunk
size `parseCTState` assumes. -/
def ctFlags3 : List (List Char) := ["new".data, "est".data, "rel".data, "rpl".data,
  "inv".data, "trk".data]

/-- A signed connection-tracking token: a '+' or '-' sign followed by one
of the three-letter flag names. -/
def isSigned3Token (t : List Char) : Bool :=
  match t with
  | s :: f => (s = '+' ∨ s = '-' : Bool) && ctFlags3.contains f
  | [] => false

/-! ## ovs/ovs.go — `IsPortNotExist` (lines 67-75)

`Error` (ovs/ovs.go lines 55-58) carries the combined output bytes `Out`
and a wrapped error `Err`.  `IsPortNotExist` first type-asserts its
argument to `*Error`; an error value of any other dynamic type yields
`false`.  The wrapped `Err` is only ever inspected through `Err.Error()`,
so it is embedded by that text. -/

/-- A Go `error` value as `IsPortNotExist` can observe it: either an
`*ovs.Error` with combined output `out` and wrapped error text `errText`,
or an error of any other dynamic type. -/
inductive GoErrValue where
  | ovsError (out : String) (errText : String)
  | otherError (text : String)
  deriving DecidableEq, Repr

/-- `IsPortNotExist` (ovs/ovs.go lines 67-75): type-assert to `*Error`,
then test that `Out` begins with `ovs-vsctl: no port named ` and that the
wrapped error text is exactly `exit status 1`. -/
def IsPortNotExist : GoErrValue → Bool
  | .ovsError out errText =>
    "ovs-vsctl: no port named ".data.isPrefixOf out.data &&
      (errText == "exit status 1")
  | .otherError _ => false

/-! ## ovsdb/internal/jsonrpc — `Conn.Send`

The staged file src/ovsdb/internal/jsonrpc/testconn.go carries several
revisions of the package; the `Conn.Send` of the claim (lines 488-506) is
the one whose `Request` has a string `ID` and `interface{}` `Params`. -/

/-- A JSON value, as far as the claims need one. -/
inductive JsonValue where
  | null
  | arr (xs : List JsonValue)
  | str (s : String)
  | num (n : Int)

/-- `jsonrpc.Request` (testconn.go lines 421-426): `Params interface{}`
is embedded as `Option JsonValue`, `none` standing for the Go nil
interface. -/
structure JsonRpcRequest where
  id : String
  method : String
  params : Option JsonValue

/-- `Conn.Send` (testconn.go lines 488-506): reject an empty request ID;
replace nil `Params` by the empty JSON array (the OVSDB server refuses
null); the `Except.ok` payload is the request value handed to
`enc.Encode`, i.e. the value encoded onto the stream. -/
def connSend (req : JsonRpcRequest) : Except String JsonRpcRequest :=
  if req.id = "" then
    .error "JSON-RPC request ID must not be empty"
  else
    match req.params with
    | none => .ok { req with params := some (.arr []) }
    | some _ => .ok req

/-! ## ovsdb/client.go — callback map bookkeeping and dispatch

`Client.callbacks` is a `map[string]callback`; the claims only observe
its key set and its size (`Stats().Callbacks.Current = len(c.callbacks)`,
client.go line 177), so the map is embedded as the list of registered
ids, in registration order. -/

/-- `delete(c.callbacks, id)` on the embedded map: remove the binding of
`id` (a Go map holds at most one). -/
def deleteCallback (m : List String) (id : String) : List String :=
  m.filter (fun x => x ≠ id)

/-- `Stats().Callbacks.Current` (client.go lines 173-184). -/
def statsCallbacksCurrent (m : List String) : Nat := m.length

/-- One observable modification of the callback map during an RPC:

* `add id` — `Client.addCallback` (client.go lines 383-393), performed by
  `rpc` before sending;
* `del id` — a `delete(c.callbacks, id)`: either the one in `doCallback`
  (line 418) or the deferred one in `rpc` (lines 237-242). -/
inductive CbEvent where
  | add (id : String)
  | del (id : String)
  deriving DecidableEq, Repr

/-- Apply one event to the callback map.  `addCallback` panics on a
duplicate id (client.go lines 387-390); the panic is `none`. -/
def applyCbEvent (m : List String) : CbEvent → Option (List String)
  | .add id => if id ∈ m then none else some (m ++ [id])
  | .del id => some (deleteCallback m id)

/-- Run a whole trace of callback-map events. -/
def runCbTrace (m : List String) : List CbEvent → Option (List String)
  | [] => some m
  | e :: tr =>
    match applyCbEvent m e with
    | none => none
    | some m' => runCbTrace m' tr

/-- The ids of the `add` events of a trace, in order. -/
def addsOf (tr : List CbEvent) : List String :=
  tr.filterMap (fun e => match e with | .add id => some id | .del _ => none)

/-- Every `add` of the trace is followed, later in the trace, by a `del`
of the same id — the formal content of "each call removes its own
callback-map entry before returning". -/
def addsFollowedByDel : List CbEvent → Bool
  | [] => true
  | .add id :: tr => tr.contains (.del id) && addsFollowedByDel tr
  | .del _ :: tr => addsFollowedByDel tr

/-- The four completion paths of `Client.rpc` named by the claim. -/
inductive RpcOutcome where
  | success
  | jsonrpcError
  | ovsdbError
  | canceled
  deriving DecidableEq, Repr

/-- The callback-map events of one `Client.rpc` call (client.go lines
203-266), in program order:

* every path starts with `addCallback` (line 227);
* on a successful response, a JSON-RPC error response, or an OVSDB
  application error, the dispatcher's `doCallback` deletes the entry
  (line 418) and the deferred function in `rpc` deletes it again, a no-op
  (lines 233-242 note this double delete);
* on context cancellation only the deferred delete runs (a late response
  finds no entry and `doCallback` returns without touching the map). -/
def rpcEvents (id : String) : RpcOutcome → List CbEvent
  | .success => [.add id, .del id, .del id]
  | .jsonrpcError => [.add id, .del id, .del id]
  | .ovsdbError => [.add id, .del id, .del id]
  | .canceled => [.add id, .del id]

/-! ## ovsdb/client.go — the dispatch step of `Client.listen` -/

/-- A message as received by `Client.listen`: `jsonrpc.Response`
(testconn.go lines 429-440) has `ID *string` (embedded `Option String`,
`none` standing for JSON null), a `Method` string (empty when absent) and
an `Error` (embedded by its text, `none` standing for null). -/
structure RpcMsg where
  id : Option String
  method : String
  error : Option String
  deriving DecidableEq, Repr

/-- What one iteration of `Client.listen` (client.go lines 270-311) does
with a received message. -/
inductive DispatchStep where
  /-- `method == "echo"`: a signal is sent on the echo channel; no
  callback is touched (lines 285-296). -/
  | echoSignal
  /-- `doCallback(*res.ID, …)` is invoked with this id (lines 299-309);
  `isError` records whether the JSON-RPC `error` field was non-null. -/
  | callback (id : String) (isError : Bool)
  /-- `*res.ID` is dereferenced while `res.ID` is nil: the Go program
  panics with a nil-pointer dereference. -/
  | panicNilID
  deriving DecidableEq, Repr

/-- The dispatch decision of one `Client.listen` iteration, translated
from client.go lines 285-309: the `switch res.Method` handles only
`"echo"`; every other message reaches `c.doCallback(*res.ID, …)`, which
dereferences the possibly-nil `res.ID`. -/
def listenDispatch (m : RpcMsg) : DispatchStep :=
  if m.method = "echo" then .echoSignal
  else
    match m.id with
    | some id => .callback id m.error.isSome
    | none => .panicNilID

/-- `Client.doCallback` (client.go lines 397-419) as a function on the
embedded callback map: look the id up; when no callback is registered,
return with the map unchanged; otherwise deliver and delete the entry. -/
def doCallbackMap (m : List String) (id : String) : List String :=
  if id ∈ m then deleteCallback m id else m

/-! ## ovsnl (src/unnamed/part_006) — fixed-layout stat structs

`parseDPStats` and `parseDPMegaflowStats` validate the attribute length
against `unsafe.Sizeof` of the corresponding `ovsh` struct before a
direct cast.  From ovsnl/internal/ovsh/struct.go: `DPStats` is four
`uint64` fields (32 bytes) and `DPMegaflowStats` is `uint64, uint32,
uint32 pad, uint64 pad, uint64 pad` (32 bytes).  Bytes are embedded as
`List Nat` and the cast little-endian, the byte order of the platforms
the package targets. -/

/-- Little-endian value of a byte list (first byte least significant). -/
def bytesToNat (bs : List Nat) : Nat :=
  bs.foldr (fun b acc => b + 256 * acc) 0

/-- `ovsnl.DatapathStats` (part_006 lines 79-90). -/
structure DatapathStats where
  hit : Nat
  missed : Nat
  lost : Nat
  flows : Nat
  deriving DecidableEq, Repr

/-- `ovsnl.DatapathMegaflowStats` (part_006 lines 92-98). -/
structure DatapathMegaflowStats where
  maskHits : Nat
  masks : Nat
  deriving DecidableEq, Repr

/-- `int(unsafe.Sizeof(ovsh.DPStats{}))`: 4 × 8 bytes. -/
def sizeofDPStats : Nat := 32

/-- `int(unsafe.Sizeof(ovsh.DPMegaflowStats{}))`: 8 + 4 + 4 + 8 + 8. -/
def sizeofDPMegaflowStats : Nat := 32

/-- The direct cast `*(*ovsh.DPStats)(unsafe.Pointer(&b[0]))` followed by
the field copy of part_006 lines 176-182, on a 32-byte attribute. -/
def dpStatsOfBytes (b : List Nat) : DatapathStats :=
  { hit := bytesToNat (b.take 8)
    missed := bytesToNat ((b.drop 8).take 8)
    lost := bytesToNat ((b.drop 16).take 8)
    flows := bytesToNat ((b.drop 24).take 8) }

/-- The cast and field copy of part_006 lines 193-198 (`Mask_hit` then
`Masks`, the padding fields are not copied). -/
def dpMegaflowStatsOfBytes (b : List Nat) : DatapathMegaflowStats :=
  { maskHits := bytesToNat (b.take 8)
    masks := bytesToNat ((b.drop 8).take 4) }

/-- `parseDPStats` (part_006 lines 168-183): Go returns the pair
`(DatapathStats, error)`; the error is the second component, and a
size-mismatch error comes with the zero-valued struct. -/
def parseDPStats (b : List Nat) : DatapathStats × Option String :=
  if sizeofDPStats ≠ b.length then
    (⟨0, 0, 0, 0⟩,
      some ("unexpected datapath stats structure size, want 32, got " ++
        toString b.length))
  else
    (dpStatsOfBytes b, none)

/-- `parseDPMegaflowStats` (part_006 lines 185-199). -/
def parseDPMegaflowStats (b : List Nat) : DatapathMegaflowStats × Option String :=
  if sizeofDPMegaflowStats ≠ b.length then
    (⟨0, 0⟩,
      some ("unexpected datapath megaflow stats structure size, want 32, got " ++
        toString b.length))
  else
    (dpMegaflowStatsOfBytes b, none)

/-! ## Theorems -/

/-- Unfolding equation of `parseActions` (the well-founded definition
does not reduce definitionally). -/
theorem parseActions_eq (input : List Char) (d : Nat) :
    parseActions input d =
      match parseActionLoop [] d input with
      | .eofR => .ok []
      | .errR b => .err b
      | .panicR => .panics
      | .tok b rest d2 =>
        match parseActions rest d2 with
        | .ok toks => .ok (b :: toks)
        | r => r := by
  rw [parseActions]
  split <;> rename_i h <;> rw [h]

/-- C10: on any input whose first unmatched parenthesis is a closing one,
such as `)` or `a)b`, the tokenizer reaches `stack.pop` with an empty
stack (`*s = (*s)[:s.len()-1]` with `s.len() = 0`, actionparser.go lines
106-116 and 141-144), so the Go parser panics with a slice bound below
zero instead of returning an error value. -/
theorem actionTokenizer_unbalanced_close_panics :
    parseActions ")".data 0 = .panics ∧ parseActions "a)b".data 0 = .panics := by
  constructor
  · rw [parseActions_eq]
    rfl
  · rw [parseActions_eq]
    rfl

/-- One-step unfolding of `parseActionLoop` at the end of input. -/
theorem parseActionLoop_nil (buf : List Char) (d : Nat) :
    parseActionLoop buf d [] =
      if buf = [] then .eofR
      else if 0 < d then .errR buf
      else .tok buf [] d := rfl

/-- One-step unfolding of `parseActionLoop` on one rune. -/
theorem parseActionLoop_cons (buf : List Char) (d : Nat) (c : Char) (cs : List Char) :
    parseActionLoop buf d (c :: cs) =
      if c = ',' ∧ d = 0 then
        (if 0 < d then .errR buf else .tok buf cs d)
      else if c = eofChar then
        (if buf = [] then .eofR
         else if 0 < d then .errR buf
         else .tok buf cs d)
      else if c = '(' then
        parseActionLoop (buf ++ [c]) (d + 1) cs
      else if c = ')' then
        (match d with
         | 0 => .panicR
         | d' + 1 => parseActionLoop (buf ++ [c]) d' cs)
      else
        parseActionLoop (buf ++ [c]) d cs := rfl

/-- One-step unfolding of `noTopLevelComma` on one rune. -/
theorem noTopLevelComma_cons (c : Char) (rest : List Char) (d : Nat) :
    noTopLevelComma (c :: rest) d =
      if c = ',' ∧ d = 0 then false
      else if c = '(' then noTopLevelComma rest (d + 1)
      else if c = ')' then noTopLevelComma rest (d - 1)
      else noTopLevelComma rest d := rfl

/-- One-step unfolding of `scanDepth` on one rune. -/
theorem scanDepth_cons (c : Char) (rest : List Char) (d : Nat) :
    scanDepth (c :: rest) d =
      if c = '(' then scanDepth rest (d + 1)
      else if c = ')' then
        (match d with
         | 0 => none
         | d' + 1 => scanDepth rest d')
      else scanDepth rest d := rfl

/-- A token scan entered with a nonempty buffer never reports `io.EOF`. -/
theorem parseActionLoop_ne_eofR :
    ∀ (input buf : List Char) (d : Nat), buf ≠ [] →
      parseActionLoop buf d input ≠ .eofR := by
  intro input
  induction input with
  | nil =>
    intro buf d hb
    rw [parseActionLoop_nil]
    split
    · exact absurd ‹buf = []› hb
    · split <;> simp
  | cons c cs ih =>
    intro buf d hb
    rw [parseActionLoop_cons]
    repeat' split
    all_goals first
      | exact ih _ _ (by simp)
      | exact absurd ‹buf = []› hb
      | simp

/-- On NUL-free input, a scan started with an empty buffer reports
`io.EOF` only at the end of the input. -/
theorem parseActionLoop_eofR_nil :
    ∀ (input : List Char) (d : Nat), (∀ c ∈ input, c ≠ eofChar) →
      parseActionLoop [] d input = .eofR → input = [] := by
  intro input d hn h
  cases input with
  | nil => rfl
  | cons c cs =>
    exfalso
    rw [parseActionLoop_cons] at h
    split at h
    · split at h <;> cases h
    · split at h
      · exact hn c (by simp) ‹c = eofChar›
      · split at h
        · exact parseActionLoop_ne_eofR _ _ _ (by simp) h
        · split at h
          · split at h
            · cases h
            · exact parseActionLoop_ne_eofR _ _ _ (by simp) h
          · exact parseActionLoop_ne_eofR _ _ _ (by simp) h

/-- What a `tok` break means: the token is the scanned prefix, it has no
top-level comma, the final stack is empty, and the input continues after
the consumed break comma (or the token was ended by the end of input). -/
theorem parseActionLoop_tok_spec :
    ∀ (input buf : List Char) (d : Nat) b rest d2,
      (∀ c ∈ input, c ≠ eofChar) →
      parseActionLoop buf d input = .tok b rest d2 →
      ∃ t, b = buf ++ t ∧ d2 = 0 ∧ noTopLevelComma t d = true ∧
        (input = t ++ ',' :: rest ∨ (rest = [] ∧ input = t)) := by
  intro input
  induction input with
  | nil =>
    intro buf d b rest d2 hn h
    rw [parseActionLoop_nil] at h
    split at h
    · cases h
    · split at h
      · cases h
      · cases h
        rename_i hd
        refine ⟨[], by simp, by omega, rfl, Or.inr ⟨rfl, rfl⟩⟩
  | cons c cs ih =>
    intro buf d b rest d2 hn h
    have hncs : ∀ x ∈ cs, x ≠ eofChar := fun x hx => hn x (by simp [hx])
    rw [parseActionLoop_cons] at h
    split at h
    · rename_i hc
      split at h
      · cases h
      · cases h
        refine ⟨[], by simp, by omega, rfl, Or.inl (by simp [hc.1])⟩
    · rename_i hc
      split at h
      · exact absurd ‹c = eofChar› (hn c (by simp))
      · rename_i hceof
        split at h
        · rename_i hcp
          rcases ih _ _ _ _ _ hncs h with ⟨t', hb, hd2, htop, hrest⟩
          refine ⟨c :: t', by simp [hb], hd2, ?_, ?_⟩
          · rw [noTopLevelComma_cons, if_neg hc, if_pos hcp]
            exact htop
          · rcases hrest with h' | ⟨h1, h2⟩
            · exact Or.inl (by simp [h'])
            · exact Or.inr ⟨h1, by simp [h2]⟩
        · rename_i hcp
          split at h
          · rename_i hcq
            split at h
            · cases h
            · rename_i d' _
              rcases ih _ _ _ _ _ hncs h with ⟨t', hb, hd2, htop, hrest⟩
              refine ⟨c :: t', by simp [hb], hd2, ?_, ?_⟩
              · rw [noTopLevelComma_cons, if_neg hc, if_neg hcp, if_pos hcq]
                simpa using htop
              · rcases hrest with h' | ⟨h1, h2⟩
                · exact Or.inl (by simp [h'])
                · exact Or.inr ⟨h1, by simp [h2]⟩
          · rename_i hcq
            rcases ih _ _ _ _ _ hncs h with ⟨t', hb, hd2, htop, hrest⟩
            refine ⟨c :: t', by simp [hb], hd2, ?_, ?_⟩
            · rw [noTopLevelComma_cons, if_neg hc, if_neg hcp, if_neg hcq]
              exact htop
            · rcases hrest with h' | ⟨h1, h2⟩
              · exact Or.inl (by simp [h'])
              · exact Or.inr ⟨h1, by simp [h2]⟩

/-- When the whole input still has open parentheses at its end, the token
scan, wherever it is started, either raises the `invalid action` error or
breaks a token and leaves the error to the scan of the rest. -/
theorem parseActionLoop_err_of_depth :
    ∀ (input buf : List Char) (d dEnd : Nat),
      (∀ c ∈ input, c ≠ eofChar) →
      scanDepth input d = some dEnd → 0 < dEnd →
      (∃ b, parseActionLoop buf d input = .errR b) ∨
      (∃ b rest, parseActionLoop buf d input = .tok b rest 0 ∧
         rest.length < input.length ∧ (∀ c ∈ rest, c ∈ input) ∧
         scanDepth rest 0 = some dEnd) ∨
      (input = [] ∧ buf = []) := by
  intro input
  induction input with
  | nil =>
    intro buf d dEnd hn hsd hpos
    have e : scanDepth ([] : List Char) d = some d := rfl
    rw [e] at hsd
    cases hsd
    rw [parseActionLoop_nil]
    by_cases hb : buf = []
    · exact Or.inr (Or.inr ⟨rfl, hb⟩)
    · rw [if_neg hb, if_pos hpos]
      exact Or.inl ⟨buf, rfl⟩
  | cons c cs ih =>
    intro buf d dEnd hn hsd hpos
    have hncs : ∀ x ∈ cs, x ≠ eofChar := fun x hx => hn x (by simp [hx])
    rw [scanDepth_cons] at hsd
    rw [parseActionLoop_cons]
    by_cases hc : c = ',' ∧ d = 0
    · rw [if_pos hc]
      rw [if_neg (by simp [hc.1]), if_neg (by simp [hc.1])] at hsd
      rw [if_neg (by omega : ¬0 < d)]
      refine Or.inr (Or.inl ⟨buf, cs, ?_, by simp, fun x hx => by simp [hx], ?_⟩)
      · rw [hc.2]
      · rw [← hc.2]; exact hsd
    · rw [if_neg hc]
      by_cases hce : c = eofChar
      · exact absurd hce (hn c (by simp))
      · rw [if_neg hce]
        by_cases hcp : c = '('
        · rw [if_pos hcp]
          rw [if_pos hcp] at hsd
          rcases ih (buf ++ [c]) (d + 1) dEnd hncs hsd hpos with
            ⟨b, hb⟩ | ⟨b, rest, heq, hlen, hmem, hsd'⟩ | ⟨_, hbuf⟩
          · exact Or.inl ⟨b, hb⟩
          · exact Or.inr (Or.inl ⟨b, rest, heq, Nat.lt_succ_of_lt hlen,
              fun x hx => by simp [hmem x hx], hsd'⟩)
          · simp at hbuf
        · rw [if_neg hcp]
          by_cases hcq : c = ')'
          · rw [if_pos hcq]
            rw [if_neg hcp, if_pos hcq] at hsd
            cases d with
            | zero => exact absurd hsd (by simp)
            | succ d' =>
              have hsd' : scanDepth cs d' = some dEnd := hsd
              rcases ih (buf ++ [c]) d' dEnd hncs hsd' hpos with
                ⟨b, hb⟩ | ⟨b, rest, heq, hlen, hmem, hsd''⟩ | ⟨_, hbuf⟩
              · exact Or.inl ⟨b, hb⟩
              · exact Or.inr (Or.inl ⟨b, rest, heq, Nat.lt_succ_of_lt hlen,
                  fun x hx => by simp [hmem x hx], hsd''⟩)
              · simp at hbuf
          · rw [if_neg hcq]
            rw [if_neg hcp, if_neg hcq] at hsd
            rcases ih (buf ++ [c]) d dEnd hncs hsd hpos with
              ⟨b, hb⟩ | ⟨b, rest, heq, hlen, hmem, hsd'⟩ | ⟨_, hbuf⟩
            · exact Or.inl ⟨b, hb⟩
            · exact Or.inr (Or.inl ⟨b, rest, heq, Nat.lt_succ_of_lt hlen,
                fun x hx => by simp [hmem x hx], hsd'⟩)
            · simp at hbuf

/-- On NUL-free input, an empty token list is produced only by empty
input. -/
theorem parseActions_ok_nil :
    ∀ (input : List Char), (∀ c ∈ input, c ≠ eofChar) →
      parseActions input 0 = .ok [] → input = [] := by
  intro input hn h
  rw [parseActions_eq] at h
  rcases hpl : parseActionLoop [] 0 input with ⟨b, rest, d2⟩ | _ | b | _ <;>
    simp only [hpl] at h
  · rcases hr : parseActions rest d2 with toks | b' | _ <;> simp only [hr] at h <;>
      simp at h
  · exact parseActionLoop_eofR_nil input 0 hn hpl
  · simp at h
  · simp at h

/-- Main induction for the successful case of the tokenizer: the tokens
join back to the input with commas (possibly with one trailing consumed
comma) and none of them holds a top-level comma. -/
theorem parseActions_ok_spec :
    ∀ (n : Nat) (input : List Char), input.length ≤ n →
      (∀ c ∈ input, c ≠ eofChar) →
      ∀ toks, parseActions input 0 = .ok toks →
        (joinComma toks = input ∨ joinComma toks ++ [','] = input) ∧
        ∀ t ∈ toks, noTopLevelComma t 0 = true := by
  intro n
  induction n with
  | zero =>
    intro input hlen hn toks h
    have hin : input = [] := List.eq_nil_of_length_eq_zero (Nat.le_zero.mp hlen)
    subst hin
    rw [parseActions_eq] at h
    have e : parseActionLoop ([] : List Char) 0 [] = .eofR := rfl
    simp only [e] at h
    cases h
    exact ⟨Or.inl rfl, by simp⟩
  | succ n ih =>
    intro input hlen hn toks h
    rw [parseActions_eq] at h
    rcases hpl : parseActionLoop [] 0 input with ⟨b, rest, d2⟩ | _ | bb | _ <;>
      simp only [hpl] at h
    · rcases parseActionLoop_tok_spec input [] 0 b rest d2 hn hpl with
        ⟨t, hb, hd2, htop, hshape⟩
      subst hd2
      simp only [List.nil_append] at hb
      subst hb
      rcases hr : parseActions rest 0 with toks' | _ | _ <;> simp only [hr] at h
      · cases h
        rcases hshape with hin | ⟨hrest, hin⟩
        · have hnr : ∀ c ∈ rest, c ≠ eofChar := fun c hc => hn c (by simp [hin, hc])
          have hlr : rest.length ≤ n := by
            have := congrArg List.length hin
            simp at this
            omega
          obtain ⟨hjoin', htop'⟩ := ih rest hlr hnr toks' hr
          constructor
          · rcases toks' with _ | ⟨u, us⟩
            · have hre : rest = [] := parseActions_ok_nil rest hnr hr
              subst hre
              exact Or.inr (by simp [joinComma, hin])
            · rcases hjoin' with hj | hj
              · exact Or.inl (by simp [joinComma, hin, ← hj])
              · exact Or.inr (by simp [joinComma, hin, ← hj])
          · intro x hx
            rcases List.mem_cons.mp hx with rfl | hx'
            · exact htop
            · exact htop' x hx'
        · subst hrest
          have htoks' : toks' = [] := by
            rw [parseActions_eq] at hr
            have e : parseActionLoop ([] : List Char) 0 [] = .eofR := rfl
            simp only [e] at hr
            cases hr
            rfl
          subst htoks'
          refine ⟨Or.inl (by simp [joinComma, hin]), ?_⟩
          intro x hx
          simp at hx
          subst hx
          exact htop
      · simp at h
      · simp at h
    · cases h
      have hin : input = [] := parseActionLoop_eofR_nil input 0 hn hpl
      subst hin
      exact ⟨Or.inl rfl, by simp⟩
    · simp at h
    · simp at h

/-- Main induction for the error case: open parentheses left at end of
input force the `invalid action` error. -/
theorem parseActions_err_spec :
    ∀ (n : Nat) (input : List Char), input.length ≤ n →
      (∀ c ∈ input, c ≠ eofChar) →
      ∀ dEnd, scanDepth input 0 = some dEnd → 0 < dEnd →
        ∃ b, parseActions input 0 = .err b := by
  intro n
  induction n with
  | zero =>
    intro input hlen hn dEnd hsd hpos
    have hin : input = [] := List.eq_nil_of_length_eq_zero (Nat.le_zero.mp hlen)
    subst hin
    have e : scanDepth ([] : List Char) 0 = some 0 := rfl
    rw [e] at hsd
    cases hsd
    exact absurd hpos (by simp)
  | succ n ih =>
    intro input hlen hn dEnd hsd hpos
    rcases parseActionLoop_err_of_depth input [] 0 dEnd hn hsd hpos with
      ⟨b, hb⟩ | ⟨b, rest, heq, hlenr, hmem, hsd'⟩ | ⟨hnil, _⟩
    · refine ⟨b, ?_⟩
      rw [parseActions_eq]
      simp only [hb]
    · have hnr : ∀ c ∈ rest, c ≠ eofChar := fun c hc => hn c (hmem c hc)
      have hlr : rest.length ≤ n := by omega
      obtain ⟨b', hb'⟩ := ih rest hlr hnr dEnd hsd' hpos
      refine ⟨b', ?_⟩
      rw [parseActions_eq]
      simp only [heq, hb']
    · subst hnil
      have e : scanDepth ([] : List Char) 0 = some 0 := rfl
      rw [e] at hsd
      cases hsd
      exact absurd hpos (by simp)

/-- C1: the action tokenizer splits its input only at commas at
parenthesis-nesting depth zero — whenever tokenization succeeds, the
tokens joined back with commas reproduce the input (up to the one
consumed trailing comma) and no token holds a top-level comma, so nested
compound actions stay single tokens — and whenever the nesting depth is
still positive at end of input, it returns the `invalid action: <buf>`
error (`TokensResult.err buf`) instead of any list of actions.  The
hypothesis excludes the NUL rune, which the Go reader cannot distinguish
from its end-of-input sentinel `eof = rune(0)`. -/
theorem actionTokenizer_top_level_split (input : List Char)
    (hn : ∀ c ∈ input, c ≠ eofChar) :
    (∀ toks, parseActions input 0 = .ok toks →
      (joinComma toks = input ∨ joinComma toks ++ [','] = input) ∧
      ∀ t ∈ toks, noTopLevelComma t 0 = true) ∧
    (∀ dEnd, scanDepth input 0 = some dEnd → 0 < dEnd →
      ∃ b, parseActions input 0 = .err b) := by
  constructor
  · intro toks h
    exact parseActions_ok_spec input.length input le_rfl hn toks h
  · intro dEnd hsd hpos
    exact parseActions_err_spec input.length input le_rfl hn dEnd hsd hpos

/-- Witness for C1 at concrete inputs: the nested compound action list
`ct(commit,exec(set_field:1->ct_label)),resubmit(,1)` tokenizes into its
two top-level tokens (the commas inside `ct(...)` split nothing), and
`ct(` — depth still 1 at end of input — yields the `invalid action`
error. -/
theorem actionTokenizer_top_level_split_witness :
    ((joinComma ["ct(commit,exec(set_field:1->ct_label))".data,
        "resubmit(,1)".data] =
          "ct(commit,exec(set_field:1->ct_label)),resubmit(,1)".data ∨
      joinComma ["ct(commit,exec(set_field:1->ct_label))".data,
        "resubmit(,1)".data] ++ [','] =
          "ct(commit,exec(set_field:1->ct_label)),resubmit(,1)".data) ∧
     (∀ t ∈ ["ct(commit,exec(set_field:1->ct_label))".data,
        "resubmit(,1)".data], noTopLevelComma t 0 = true)) ∧
    (∃ b, parseActions "ct(".data 0 = .err b) := by
  constructor
  · refine (actionTokenizer_top_level_split
      "ct(commit,exec(set_field:1->ct_label)),resubmit(,1)".data
      (by decide)).1 _ ?_
    have h1 : parseActionLoop [] 0
        "ct(commit,exec(set_field:1->ct_label)),resubmit(,1)".data =
        .tok "ct(commit,exec(set_field:1->ct_label))".data "resubmit(,1)".data 0 := by
      decide
    have h2 : parseActionLoop [] 0 "resubmit(,1)".data =
        .tok "resubmit(,1)".data [] 0 := by decide
    have h3 : parseActionLoop ([] : List Char) 0 [] = .eofR := rfl
    rw [parseActions_eq]
    simp only [h1]
    rw [parseActions_eq]
    simp only [h2]
    rw [parseActions_eq]
    simp only [h3]
  · exact (actionTokenizer_top_level_split "ct(".data (by decide)).2 1
      (by decide) (by decide)

/-- One step of `runCbTrace` on an `add` event: the duplicate-id panic
of `addCallback`, or registration at the end of the map. -/
theorem runCbTrace_cons_add (m : List String) (id : String) (tr : List CbEvent) :
    runCbTrace m (CbEvent.add id :: tr) =
      if id ∈ m then none else runCbTrace (m ++ [id]) tr := by
  by_cases h : id ∈ m <;> simp [runCbTrace, applyCbEvent, h]

/-- One step of `runCbTrace` on a `del` event. -/
theorem runCbTrace_cons_del (m : List String) (id : String) (tr : List CbEvent) :
    runCbTrace m (CbEvent.del id :: tr) = runCbTrace (deleteCallback m id) tr := rfl

/-- Membership after a map delete. -/
theorem mem_deleteCallback (m : List String) (id x : String) :
    x ∈ deleteCallback m id ↔ x ∈ m ∧ x ≠ id := by
  simp [deleteCallback]

/-- If every `add` of a trace is followed by a later `del` of its id, and
the id is either absent at the start or deleted somewhere in the trace,
then the id is absent from the final callback map. -/
theorem runCbTrace_not_mem :
    ∀ (tr : List CbEvent) (m m' : List String) (id : String),
      runCbTrace m tr = some m' → addsFollowedByDel tr = true →
      (id ∉ m ∨ CbEvent.del id ∈ tr) → id ∉ m' := by
  intro tr
  induction tr with
  | nil =>
    intro m m' id hrun _ hdisj
    cases hrun
    rcases hdisj with h | h
    · exact h
    · simp at h
  | cons e tr' ih =>
    intro m m' id hrun hfd hdisj
    cases e with
    | add id' =>
      rw [runCbTrace_cons_add] at hrun
      split at hrun
      · cases hrun
      · simp only [addsFollowedByDel, Bool.and_eq_true, List.elem_iff] at hfd
        rcases hdisj with hm | hd
        · by_cases hii : id = id'
          · subst hii
            exact ih _ _ _ hrun hfd.2 (Or.inr hfd.1)
          · refine ih _ _ _ hrun hfd.2 (Or.inl ?_)
            intro hcon
            rcases List.mem_append.mp hcon with h | h
            · exact hm h
            · simp at h
              exact hii h
        · have : CbEvent.del id ∈ tr' := by
            rcases List.mem_cons.mp hd with h | h
            · cases h
            · exact h
          exact ih _ _ _ hrun hfd.2 (Or.inr this)
    | del id' =>
      rw [runCbTrace_cons_del] at hrun
      have hfd' : addsFollowedByDel tr' = true := hfd
      by_cases hii : id = id'
      · subst hii
        refine ih _ _ _ hrun hfd' (Or.inl ?_)
        simp [mem_deleteCallback]
      · rcases hdisj with hm | hd
        · refine ih _ _ _ hrun hfd' (Or.inl ?_)
          simp [mem_deleteCallback, hm]
        · have : CbEvent.del id ∈ tr' := by
            rcases List.mem_cons.mp hd with h | h
            · exact absurd (by injection h) hii
            · exact h
          exact ih _ _ _ hrun hfd' (Or.inr this)

/-- When the added ids are pairwise distinct and none is registered yet,
the trace runs without the duplicate-id panic of `addCallback`, and the
final map only holds ids that were present initially or added by the
trace. -/
theorem runCbTrace_total :
    ∀ (tr : List CbEvent) (m : List String),
      (addsOf tr).Nodup → (∀ id ∈ addsOf tr, id ∉ m) →
      ∃ m', runCbTrace m tr = some m' ∧
        ∀ id ∈ m', id ∈ m ∨ id ∈ addsOf tr := by
  intro tr
  induction tr with
  | nil =>
    intro m _ _
    exact ⟨m, rfl, fun id h => Or.inl h⟩
  | cons e tr' ih =>
    intro m hnd hfresh
    cases e with
    | add id' =>
      have haddsOf : addsOf (CbEvent.add id' :: tr') = id' :: addsOf tr' := rfl
      rw [haddsOf] at hnd hfresh
      have hid' : id' ∉ m := hfresh id' (by simp)
      have hnd' : (addsOf tr').Nodup := hnd.of_cons
      have hfresh' : ∀ id ∈ addsOf tr', id ∉ m ++ [id'] := by
        intro id hid
        have h1 : id ∉ m := hfresh id (by simp [hid])
        have h2 : id ≠ id' := by
          intro hcon
          subst hcon
          exact (List.nodup_cons.mp hnd).1 hid
        simp [h1, h2]
      obtain ⟨m', hrun, hsup⟩ := ih (m ++ [id']) hnd' hfresh'
      refine ⟨m', ?_, ?_⟩
      · rw [runCbTrace_cons_add, if_neg hid']
        exact hrun
      · intro id hid
        rcases hsup id hid with h | h
        · rcases List.mem_append.mp h with h' | h'
          · exact Or.inl h'
          · simp at h'
            subst h'
            exact Or.inr (by simp [haddsOf])
        · exact Or.inr (by simp [haddsOf, h])
    | del id' =>
      have haddsOf : addsOf (CbEvent.del id' :: tr') = addsOf tr' := rfl
      rw [haddsOf] at hnd hfresh
      have hfresh' : ∀ id ∈ addsOf tr', id ∉ deleteCallback m id' := by
        intro id hid hcon
        exact hfresh id hid ((mem_deleteCallback m id' id).mp hcon).1
      obtain ⟨m', hrun, hsup⟩ := ih (deleteCallback m id') (hnd) hfresh'
      refine ⟨m', by rw [runCbTrace_cons_del]; exact hrun, ?_⟩
      intro id hid
      rcases hsup id hid with h | h
      · exact Or.inl ((mem_deleteCallback m id' id).mp h).1
      · exact Or.inr h

/-- A trace whose added ids are distinct and in which every `add` is
followed by a `del` ends with the empty callback map. -/
theorem runCbTrace_clean (tr : List CbEvent) (hnd : (addsOf tr).Nodup)
    (hfd : addsFollowedByDel tr = true) : runCbTrace [] tr = some [] := by
  obtain ⟨m', hrun, _⟩ := runCbTrace_total tr [] hnd (by simp)
  have hempty : m' = [] := by
    rw [List.eq_nil_iff_forall_not_mem]
    intro id
    exact runCbTrace_not_mem tr [] m' id hrun hfd (Or.inl (by simp))
  rw [hrun, hempty]

/-- `addsOf` splits over concatenation. -/
theorem addsOf_append (a b : List CbEvent) :
    addsOf (a ++ b) = addsOf a ++ addsOf b := by
  simp [addsOf]

/-- Each rpc call registers exactly its own id. -/
theorem addsOf_rpcEvents (id : String) (o : RpcOutcome) :
    addsOf (rpcEvents id o) = [id] := by
  cases o <;> rfl

/-- The ids added over a whole sequence of rpc calls are the calls'
request ids. -/
theorem addsOf_rpcTrace (calls : List (String × RpcOutcome)) :
    addsOf ((calls.map fun c => rpcEvents c.1 c.2).flatten) = calls.map Prod.fst := by
  induction calls with
  | nil => rfl
  | cons c cs ih => simp [addsOf_append, addsOf_rpcEvents, ih]

/-- Every completion path of one rpc call deletes the entry it added. -/
theorem rpcEvents_followed (id : String) (o : RpcOutcome) (tr : List CbEvent) :
    addsFollowedByDel tr = true →
    addsFollowedByDel (rpcEvents id o ++ tr) = true := by
  intro h
  cases o <;> simp [rpcEvents, addsFollowedByDel, h]

/-- Over a whole sequence of rpc calls, every `add` is followed by its
`del`. -/
theorem rpcTrace_followed (calls : List (String × RpcOutcome)) :
    addsFollowedByDel ((calls.map fun c => rpcEvents c.1 c.2).flatten) = true := by
  induction calls with
  | nil => rfl
  | cons c cs ih => exact rpcEvents_followed c.1 c.2 _ ih

/-- C2: for every sequence of rpc calls on the OVSDB client — each
completing by a successful response, a JSON-RPC error response, an OVSDB
application error, or context cancellation — each call's events remove
its own callback-map entry before the call returns (`rpcEvents` ends in a
`del` of the call's id on every path), so after all of them have
returned, the callback map is empty and `Stats().Callbacks.Current` is 0.
The distinctness hypothesis is what the atomic `requestID` counter
guarantees (client.go lines 157-162); without it `addCallback` would have
panicked rather than leaked. -/
theorem rpc_callback_map_cleanup (calls : List (String × RpcOutcome))
    (hnd : (calls.map Prod.fst).Nodup) :
    runCbTrace [] ((calls.map fun c => rpcEvents c.1 c.2).flatten) = some [] ∧
    ∀ m, runCbTrace [] ((calls.map fun c => rpcEvents c.1 c.2).flatten) = some m →
      statsCallbacksCurrent m = 0 := by
  have hclean : runCbTrace [] ((calls.map fun c => rpcEvents c.1 c.2).flatten) = some [] := by
    refine runCbTrace_clean _ ?_ (rpcTrace_followed calls)
    rw [addsOf_rpcTrace]
    exact hnd
  refine ⟨hclean, ?_⟩
  intro m hm
  rw [hclean] at hm
  cases hm
  rfl

/-- Witness for C2: two rpc calls, one answered and one canceled, leave
the callback map empty with zero outstanding callbacks. -/
theorem rpc_callback_map_cleanup_witness :
    runCbTrace []
        (([("1", RpcOutcome.success), ("2", RpcOutcome.canceled)].map
          fun c => rpcEvents c.1 c.2).flatten) = some [] ∧
    ∀ m, runCbTrace []
        (([("1", RpcOutcome.success), ("2", RpcOutcome.canceled)].map
          fun c => rpcEvents c.1 c.2).flatten) = some m →
      statsCallbacksCurrent m = 0 :=
  rpc_callback_map_cleanup [("1", RpcOutcome.success), ("2", RpcOutcome.canceled)]
    (by decide)

/-- C3 (code bug): `Client.listen` dereferences `*res.ID` without a nil
check (client.go lines 300 and 307), so a server-initiated notification
with a null id and a method other than `echo` — e.g. an OVSDB `update`
notification — makes the dispatch step panic with a nil-pointer
dereference instead of dropping the message; the spec says such a message
is dropped silently.  Dropping does work for a non-null id with no
registered callback: `doCallback` then leaves the map unchanged. -/
theorem listen_null_id_notification_panics :
    listenDispatch { id := none, method := "update", error := none } =
      .panicNilID ∧
    listenDispatch { id := none, method := "", error := none } = .panicNilID ∧
    doCallbackMap ["1"] "2" = ["1"] := by
  refine ⟨?_, ?_, ?_⟩ <;> decide

/-- Counterexample for C4: `parseCTState` chops its value into fixed
4-character chunks, but the claimed flags `snat` and `dnat` form
5-character signed tokens, so `+snat` (and any value whose total length
is not a multiple of 4) is rejected instead of parsed. -/
theorem parseCTState_snat_rejected :
    parseCTState "+snat".data = .error "ct_state length must be divisible by 4" ∧
    parseCTState "+snat+dnat".data =
      .error "ct_state length must be divisible by 4" := ⟨rfl, rfl⟩

/-- One-step unfolding of the `parseCTState` rune loop. -/
theorem ctStateChunkLoop_cons (i : Nat) (buf : List Char)
    (states : List (List Char)) (r : Char) (rest : List Char) :
    ctStateChunkLoop i buf states (r :: rest) =
      if i ≠ 0 ∧ i % 4 = 0 then
        ctStateChunkLoop (i + 1) [r] (states ++ [buf]) rest
      else
        ctStateChunkLoop (i + 1) (buf ++ [r]) states rest := rfl

/-- The chunk loop of `parseCTState`, entered at a chunk boundary, cuts a
concatenation of 4-character tokens back into exactly those tokens. -/
theorem ctStateChunkLoop_chunks :
    ∀ (ts : List (List Char)) (i : Nat) (buf : List Char)
      (states : List (List Char)),
      (∀ t ∈ ts, t.length = 4) → i % 4 = 0 → i ≠ 0 →
      ctStateChunkLoop i buf states ts.flatten = states ++ buf :: ts := by
  intro ts
  induction ts with
  | nil =>
    intro i buf states _ _ _
    rfl
  | cons t ts' ih =>
    intro i buf states hlen h4 h0
    have ht := hlen t (by simp)
    rcases t with _ | ⟨a, _ | ⟨b, _ | ⟨c, _ | ⟨d, _ | ⟨e, t5⟩⟩⟩⟩⟩ <;> simp at ht
    have hj : (([a, b, c, d]) :: ts').flatten = a :: b :: c :: d :: ts'.flatten := by simp
    rw [hj]
    rw [ctStateChunkLoop_cons, if_pos ⟨h0, h4⟩]
    rw [ctStateChunkLoop_cons, if_neg (by omega)]
    rw [ctStateChunkLoop_cons, if_neg (by omega)]
    rw [ctStateChunkLoop_cons, if_neg (by omega)]
    have hbuf : (([a] ++ [b]) ++ [c]) ++ [d] = [a, b, c, d] := rfl
    rw [hbuf]
    rw [ih (i + 4) [a, b, c, d] (states ++ [buf])
      (fun x hx => hlen x (by simp [hx])) (by omega) (by omega)]
    simp

/-- The byte length of a concatenation of 4-character tokens is divisible
by 4. -/
theorem flatten_length_mod4 :
    ∀ (l : List (List Char)), (∀ t ∈ l, t.length = 4) →
      l.flatten.length % 4 = 0 := by
  intro l
  induction l with
  | nil => intro _; rfl
  | cons t ts ih =>
    intro h
    rw [show (t :: ts).flatten = t ++ ts.flatten from rfl,
      List.length_append, h t (by simp)]
    have := ih (fun x hx => h x (by simp [hx]))
    omega

/-- C4 (amended): for every nonempty sequence of signed three-letter
connection-tracking flag tokens (sign `+` or `-`, flag among `new`,
`est`, `rel`, `rpl`, `inv`, `trk`), in any caller-given order, parsing the
`ct_state` value obtained by concatenating them succeeds and yields the
connection-tracking-state match carrying exactly those tokens in the same
order.  (`parseMatch` dispatches the key `ct_state` directly to
`parseCTState`, part_022 lines 28-29.)  The five-character tokens
`+snat`/`-snat`/`+dnat`/`-dnat` of the original claim are excluded: the
fixed 4-character chunking rejects or mis-chunks them. -/
theorem parseCTState_three_letter_flags :
    ∀ toks : List (List Char), toks ≠ [] →
      (∀ t ∈ toks, isSigned3Token t = true) →
      parseCTState toks.flatten = .ok toks := by
  intro toks hne hval
  have hlen : ∀ t ∈ toks, t.length = 4 := by
    intro t ht
    have hv := hval t ht
    rcases t with _ | ⟨s, f⟩
    · simp [isSigned3Token] at hv
    · simp only [isSigned3Token, Bool.and_eq_true, List.elem_iff] at hv
      have hf := hv.2
      simp [ctFlags3, List.mem_cons] at hf
      rcases hf with rfl | rfl | rfl | rfl | rfl | rfl <;> rfl
  have hjl : toks.flatten.length % 4 = 0 := flatten_length_mod4 toks hlen
  rcases toks with _ | ⟨t, ts⟩
  · exact absurd rfl hne
  · rw [parseCTState, if_neg (not_not_intro hjl)]
    have ht := hlen t (by simp)
    rcases t with _ | ⟨a, _ | ⟨b, _ | ⟨c, _ | ⟨d, _ | ⟨e, t5⟩⟩⟩⟩⟩ <;> simp at ht
    have hj : (([a, b, c, d]) :: ts).flatten = a :: b :: c :: d :: ts.flatten := by simp
    rw [hj]
    rw [ctStateChunkLoop_cons, if_neg (by omega)]
    rw [ctStateChunkLoop_cons, if_neg (by omega)]
    rw [ctStateChunkLoop_cons, if_neg (by omega)]
    rw [ctStateChunkLoop_cons, if_neg (by omega)]
    have hbuf : ((([] : List Char) ++ [a] ++ [b]) ++ [c]) ++ [d] = [a, b, c, d] := rfl
    rw [show (((([] : List Char) ++ [a]) ++ [b]) ++ [c]) ++ [d] = [a, b, c, d] from rfl]
    rw [ctStateChunkLoop_chunks ts 4 [a, b, c, d] []
      (fun x hx => hlen x (by simp [hx])) (by omega) (by omega)]
    simp

/-- Witness for C4 at the concrete value `+trk-new`. -/
theorem parseCTState_three_letter_flags_witness :
    parseCTState (["+trk".data, "-new".data]).flatten = .ok ["+trk".data, "-new".data] :=
  parseCTState_three_letter_flags ["+trk".data, "-new".data] (by decide) (by decide)

/-- Counterexample for C5: the keyword switch of `parseAction`
(actionparser.go lines 224-241) has no case for `all`, and no later
recognizer matches it, so `parseAction("all")` returns the
`no action matched` error rather than the `All()` action. -/
theorem parseAction_all_keyword_unrecognized :
    parseActionGo "all" = .error ("no action matched for " ++ goQuote "all") := rfl

/-- C5 (amended): `parseAction` recognizes each of the exact keyword
strings `drop`, `flood`, `in_port`, `local`, `normal`, `strip_vlan`,
`dec_ttl`, `ct_clear` — but not `all` — returning the corresponding
nullary constant action without error; the upper-case `LOCAL` and
`NORMAL` are also accepted (via `strings.ToLower`) and marshal back to
their lower-case forms. -/
theorem parseAction_keyword_actions :
    parseActionGo "drop" = .ok .drop ∧
    parseActionGo "flood" = .ok .flood ∧
    parseActionGo "in_port" = .ok .inPort ∧
    parseActionGo "local" = .ok .local ∧
    parseActionGo "normal" = .ok .normal ∧
    parseActionGo "strip_vlan" = .ok .stripVLAN ∧
    parseActionGo "dec_ttl" = .ok .decTTL ∧
    parseActionGo "ct_clear" = .ok .ctClear ∧
    parseActionGo "LOCAL" = .ok .local ∧
    parseActionGo "NORMAL" = .ok .normal ∧
    marshalConstAction .local = some "local" ∧
    marshalConstAction .normal = some "normal" :=
  ⟨rfl, rfl, rfl, rfl, rfl, rfl, rfl, rfl, rfl, rfl, rfl, rfl⟩

/-- Counterexample for C6: `resubmitRe` matches `resubmit(,)` with both
groups empty, and `parseAction` then returns `Resubmit(0, 0)` with a nil
error (actionparser.go lines 380-407) — parsing does not return
`errResubmitPortTableZero`. -/
theorem parseAction_resubmit_empty_parses :
    parseActionGo "resubmit(,)" = .ok (.resubmit 0 0) := rfl

/-- C6 (amended): parsing `resubmit(,)` succeeds and yields the action
`Resubmit(0, 0)`; the error `errResubmitPortTableZero` surfaces only when
that action is marshalled back to text (`Resubmit(0,0).MarshalText()`,
exercised by ovs/action_test.go `TestActionResubmit`), not at parse
time.  A resubmit with one side present marshals normally. -/
theorem resubmit_error_at_marshal :
    parseActionGo "resubmit(,)" = .ok (.resubmit 0 0) ∧
    marshalResubmit 0 0 = .error errResubmitPortTableZero ∧
    marshalResubmit 0 1 = .ok "resubmit(,1)" ∧
    marshalResubmit 1 0 = .ok "resubmit(1,)" := ⟨rfl, rfl, rfl, rfl⟩

/-- C7: `IsPortNotExist(err)` returns true exactly when `err` is an
`*Error` whose combined output begins with `ovs-vsctl: no port named `
and whose wrapped error text is exactly `exit status 1`; in particular it
is false for a value of any other error type, for other output prefixes,
and for a wrapped error text such as `exit status foo`. -/
theorem isPortNotExist_iff :
    ∀ e : GoErrValue, IsPortNotExist e = true ↔
      ∃ out errText, e = .ovsError out errText ∧
        "ovs-vsctl: no port named ".data.isPrefixOf out.data = true ∧
        errText = "exit status 1" := by
  intro e
  cases e with
  | ovsError out errText =>
    simp only [IsPortNotExist, Bool.and_eq_true, beq_iff_eq]
    constructor
    · rintro ⟨h1, h2⟩
      exact ⟨out, errText, rfl, h1, h2⟩
    · rintro ⟨o, t, heq, h1, h2⟩
      injection heq with e1 e2
      subst e1
      subst e2
      exact ⟨h1, h2⟩
  | otherError t =>
    simp [IsPortNotExist]

/-- Witness for C7: the two concrete probes of the spec. -/
theorem isPortNotExist_iff_witness :
    IsPortNotExist (.ovsError "ovs-vsctl: no port named foo" "exit status 1") = true ∧
    IsPortNotExist (.ovsError "ovs-vsctl: no port named foo" "exit status foo") = false := by
  constructor
  · exact (isPortNotExist_iff
      (.ovsError "ovs-vsctl: no port named foo" "exit status 1")).mpr
      ⟨"ovs-vsctl: no port named foo", "exit status 1", rfl, by decide, rfl⟩
  · decide

/-- C8: `Conn.Send` encodes a request with nil `Params` with `params`
equal to the empty JSON array — never null — and encodes a request with
non-nil `Params` unchanged. -/
theorem connSend_params_default :
    ∀ req : JsonRpcRequest, req.id ≠ "" →
      (req.params = none →
        connSend req = .ok { req with params := some (.arr []) }) ∧
      (∀ p, req.params = some p → connSend req = .ok req) := by
  intro req h
  constructor
  · intro hp
    simp only [connSend, if_neg h, hp]
  · intro p hp
    simp only [connSend, if_neg h, hp]

/-- Witness for C8 at a concrete request with omitted params. -/
theorem connSend_params_default_witness :
    connSend { id := "1", method := "list_dbs", params := none } =
      .ok { id := "1", method := "list_dbs", params := some (.arr []) } :=
  (connSend_params_default { id := "1", method := "list_dbs", params := none }
    (by decide)).1 rfl

/-- C9: `parseDPStats` and `parseDPMegaflowStats` return a size-mismatch
error together with the zero-valued struct for every attribute whose
length is not exactly the size of the corresponding fixed-layout struct
(32 bytes for both), and copy the struct fields without error when the
length matches exactly — no silent truncation. -/
theorem parseDPStats_size_validation :
    ∀ b : List Nat,
      (b.length ≠ 32 →
        parseDPStats b = (⟨0, 0, 0, 0⟩,
          some ("unexpected datapath stats structure size, want 32, got " ++
            toString b.length)) ∧
        parseDPMegaflowStats b = (⟨0, 0⟩,
          some ("unexpected datapath megaflow stats structure size, want 32, got " ++
            toString b.length))) ∧
      (b.length = 32 →
        parseDPStats b = (dpStatsOfBytes b, none) ∧
        parseDPMegaflowStats b = (dpMegaflowStatsOfBytes b, none)) := by
  intro b
  constructor
  · intro h
    constructor
    · simp only [parseDPStats, sizeofDPStats]
      rw [if_pos (Ne.symm h)]
    · simp only [parseDPMegaflowStats, sizeofDPMegaflowStats]
      rw [if_pos (Ne.symm h)]
  · intro h
    constructor
    · simp only [parseDPStats, sizeofDPStats]
      rw [if_neg (by omega)]
    · simp only [parseDPMegaflowStats, sizeofDPMegaflowStats]
      rw [if_neg (by omega)]

/-- Witness for C9: a 31-byte attribute is rejected with the zero struct,
a 32-byte attribute is copied without error. -/
theorem parseDPStats_size_validation_witness :
    parseDPStats (List.replicate 31 0) =
      (⟨0, 0, 0, 0⟩,
        some "unexpected datapath stats structure size, want 32, got 31") ∧
    parseDPStats (List.replicate 32 0) = (⟨0, 0, 0, 0⟩, none) := by
  constructor
  · exact ((parseDPStats_size_validation (List.replicate 31 0)).1 (by decide)).1
  · exact (((parseDPStats_size_validation (List.replicate 32 0)).2 (by decide)).1).trans
      (by decide)

end Govs
